import Mathlib

/-!
Shallow embedding of the variable-length cell abstraction
(`src/odbc-api/src/parameter/varcell.rs`) and of the parameter collection
binding protocol (`src/odbc-api/src/parameter_collection.rs`).

Bytes (`u8`) are modelled as `Nat`, byte buffers as `List Nat`, and the
native `isize` indicator field as `Int`.  Rust functions that can panic are
modelled as `Option`-returning functions where `none` marks the panic.
-/

namespace Odbc

/-- Modelled from the spec: the `Indicator` collaborator type
(`crate::buffers::Indicator`, not among the sources).  Per the spec it is one
of `Null` (value absent), `NoTotal` (truncated, untruncated length unknown)
or `Length n` (true length exactly `n` bytes). -/
inductive Indicator where
  | Null : Indicator
  | NoTotal : Indicator
  | Length : Nat → Indicator
  deriving DecidableEq, Repr

/-- Wire encoding sentinel for a missing value (`odbc_sys::NULL_DATA`). -/
def NULL_DATA : Int := -1

/-- Wire encoding sentinel for an unknown total length (`odbc_sys::NO_TOTAL`). -/
def NO_TOTAL : Int := -4

/-- Modelled from the spec: decoding of the native signed-integer indicator
encoding (spec section 6): one negative sentinel denotes `Null`, a second
distinct negative sentinel denotes `NoTotal`, and any non-negative value
denotes `Length` of that many bytes. -/
def Indicator.from_isize (i : Int) : Indicator :=
  if i = NULL_DATA then .Null
  else if i = NO_TOTAL then .NoTotal
  else .Length i.toNat

/-- Modelled from the spec: encoding of an `Indicator` into the native signed
integer (spec section 6), inverse of `Indicator.from_isize`. -/
def Indicator.to_isize : Indicator → Int
  | .Null => NULL_DATA
  | .NoTotal => NO_TOTAL
  | .Length n => (n : Int)

/-- Modelled from the spec: `is_truncated(capacity)` is true iff the indicator
denotes `NoTotal`, or denotes a `Length` strictly greater than the given
capacity (spec section 4.2). -/
def Indicator.is_truncated : Indicator → Nat → Bool
  | .Null, _ => false
  | .NoTotal, _ => true
  | .Length n, capacity => decide (capacity < n)

/-- The compile-time `VarKind` policy (`varcell.rs` lines 24-29).  Only the
`TERMINATING_ZEROES` constant participates in the buffer arithmetic the
properties below are about; `C_DATA_TYPE` and `relational_type` are opaque
to them and omitted. -/
structure VarKind where
  TERMINATING_ZEROES : Nat
  deriving DecidableEq, Repr

/-- The `Text` kind: one mandatory terminating zero (`varcell.rs` lines 35-44). -/
def Text : VarKind := { TERMINATING_ZEROES := 1 }

/-- The `Binary` kind: no mandatory terminating zeroes (`varcell.rs` lines 50-57). -/
def Binary : VarKind := { TERMINATING_ZEROES := 0 }

/-- The cell `VarCell<B, K>` (`varcell.rs` lines 72-87): a byte buffer plus the
native-encoded indicator.  The phantom kind parameter is passed explicitly to
each operation; the storage type `B` is always viewed through its byte slice,
hence a single `List Nat` buffer model. -/
structure VarCell where
  buffer : List Nat
  indicator : Int
  deriving DecidableEq, Repr

/-- Translation of the free function `ends_in_zeroes` (`varcell.rs` lines
415-423): the buffer is at least `number_of_zeroes` long and its last
`number_of_zeroes` bytes are all zero. -/
def ends_in_zeroes (buffer : List Nat) (number_of_zeroes : Nat) : Bool :=
  decide (number_of_zeroes ≤ buffer.length) &&
    (buffer.reverse.take number_of_zeroes).all (fun byte => byte == 0)

/-- Translation of `VarCell::from_buffer` (`varcell.rs` lines 136-151).
`none` models the `panic!("Truncated value must be terminated with zero.")`
branch. -/
def from_buffer (K : VarKind) (buffer : List Nat) (indicator : Indicator) :
    Option VarCell :=
  if indicator.is_truncated buffer.length && !(ends_in_zeroes buffer K.TERMINATING_ZEROES)
  then none
  else some { buffer := buffer, indicator := indicator.to_isize }

/-- Translation of `VarCell::from_vec` (`varcell.rs` lines 122-126): indicator
`Length (val.len())`, buffer the input bytes themselves.  `from_string` defers
to this function on the string's UTF-8 bytes. -/
def from_vec (K : VarKind) (val : List Nat) : Option VarCell :=
  from_buffer K val (.Length val.length)

/-- Translation of the `indicator()` accessor (`varcell.rs` lines 231-233). -/
def VarCell.ind (c : VarCell) : Indicator :=
  Indicator.from_isize c.indicator

/-- Translation of `VarCell::is_complete` (`varcell.rs` lines 215-223).  The
`slice.len() - TERMINATING_ZEROES` subtraction cannot underflow in the source:
the branch taking it requires `ends_in_zeroes`, which bounds the count by the
length. -/
def is_complete (K : VarKind) (c : VarCell) : Bool :=
  let slice := c.buffer
  let max_value_length :=
    if ends_in_zeroes slice K.TERMINATING_ZEROES then
      slice.length - K.TERMINATING_ZEROES
    else
      slice.length
  !(c.ind.is_truncated max_value_length)

/-- Translation of `VarCell::as_bytes` (`varcell.rs` lines 155-168).  The
`NoTotal` and truncated-`Length` branches slice with
`slice.len() - K::TERMINATING_ZEROES`: on a buffer shorter than the zero count
this panics (checked-arithmetic underflow, or a wrap followed by an
out-of-range slice), modelled as the outer `none`; the inner option is the
source's return value, with `none` for a `Null` indicator.  In the complete
`Length len` branch the source slices `&slice[..len]`; completeness bounds
`len` by the buffer length, so that branch cannot panic and `List.take len`
is the same slice. -/
def as_bytes (K : VarKind) (c : VarCell) : Option (Option (List Nat)) :=
  let slice := c.buffer
  match c.ind with
  | .Null => some none
  | .NoTotal =>
    if K.TERMINATING_ZEROES ≤ slice.length then
      some (some (slice.take (slice.length - K.TERMINATING_ZEROES)))
    else
      none
  | .Length len =>
    if is_complete K c then
      some (some (slice.take len))
    else if K.TERMINATING_ZEROES ≤ slice.length then
      some (some (slice.take (slice.length - K.TERMINATING_ZEROES)))
    else
      none

/-- Translation of `VarCell::capacity` (`varcell.rs` lines 236-238). -/
def capacity (c : VarCell) : Nat :=
  c.buffer.length

/-- Translation of `VarCell::hide_truncation` (`varcell.rs` lines 251-257).
The source computes `(buffer.len() - TERMINATING_ZEROES).try_into().unwrap()`
in `usize`; `none` models the underflow panic on a buffer shorter than the
terminating-zero count (the `isize` overflow of `try_into` has no counterpart
over unbounded `Nat`). -/
def hide_truncation (K : VarKind) (c : VarCell) : Option VarCell :=
  if is_complete K c then
    some c
  else if K.TERMINATING_ZEROES ≤ c.buffer.length then
    some { buffer := c.buffer
           indicator := ((c.buffer.length - K.TERMINATING_ZEROES : Nat) : Int) }
  else
    none

/-- Translation of `VarCell::<[u8; LENGTH], K>::new` (`varcell.rs` lines
397-411): buffer starts as `[0u8; LENGTH]`; an over-long input is truncated to
`LENGTH` bytes with the last byte forced to `0`; the indicator always records
the original input length.  `none` models the `buffer.last_mut().unwrap()`
panic when `LENGTH == 0` and the input is non-empty. -/
def array_new (LENGTH : Nat) (bytes : List Nat) : Option VarCell :=
  if LENGTH < bytes.length then
    if LENGTH = 0 then
      none
    else
      some { buffer := (bytes.take LENGTH).set (LENGTH - 1) 0
             indicator := (bytes.length : Int) }
  else
    some { buffer := bytes ++ List.replicate (LENGTH - bytes.length) 0
           indicator := (bytes.length : Int) }

/-- Translation of `parameter_set_size` from `impl InputParameterCollection
for T where T: InputParameter` (`parameter_collection.rs` lines 49-51). -/
def parameter_set_size_single : Nat := 1

/-- Translation of `parameter_set_size` from `impl InputParameterCollection
for [T]` (`parameter_collection.rs` lines 62-64): it returns `1` for every
slice, whatever its length. -/
def parameter_set_size_slice {α : Type} (params : List α) : Nat := 1

/-- Modelled from the spec: the tuple implementations of
`InputParameterCollection` live in module `tuple`, which is not among the
sources; per spec sections 4.6 and 8 a tuple yields parameter set size `1`.
Shown for a homogeneous 3-tuple. -/
def parameter_set_size_tuple3 {α : Type} (a b c : α) : Nat := 1

/-- The statement collaborator of `bind_input_parameters_to`: a call
`stmt position parameter` models `stmt.bind_input_parameter(position, p)
.into_result(stmt)`, with `none` as success and `some e` as the error value. -/
abbrev Stmt (α ε : Type) := Nat → α → Option ε

/-- Loop body of `bind_input_parameters_to` for `[T]` (`parameter_collection.rs`
lines 66-72), instrumented with the trace of calls issued: it walks the
enumerated slice and calls the statement at position `index as u16 + 1`.  The
cast truncates the index to 16 bits, and at a truncated index of 65535 the
`+ 1` overflows `u16`: a panic under checked arithmetic, modelled as the outer
`none` (with unchecked arithmetic the position wraps to 0 instead, so in
either build the positions stop ascending at that index).  The `?` operator
aborts with the first error; the returned list records every
`bind_input_parameter` invocation in order. -/
def bind_loop {α ε : Type} (stmt : Stmt α ε) :
    Nat → List α → Option (List (Nat × α) × Option ε)
  | _, [] => some ([], none)
  | index, parameter :: rest =>
    if index % 65536 = 65535 then
      none
    else
      match stmt (index % 65536 + 1) parameter with
      | some e => some ([(index % 65536 + 1, parameter)], some e)
      | none =>
        match bind_loop stmt (index + 1) rest with
        | none => none
        | some r => some ((index % 65536 + 1, parameter) :: r.1, r.2)

/-- Translation of `bind_input_parameters_to` for `[T]`
(`parameter_collection.rs` lines 66-72), starting the enumeration at index 0. -/
def bind_input_parameters_to {α ε : Type} (stmt : Stmt α ε) (params : List α) :
    Option (List (Nat × α) × Option ε) :=
  bind_loop stmt 0 params

/-- A statement collaborator accepting every bind, used to exhibit the
position-overflow behavior of the slice traversal on a long slice. -/
def accept_all : Stmt Nat Unit := fun _ _ => none

/-- Modelled from the spec: tuple binding (module `tuple`, not among the
sources) binds each element in left-to-right declared order to positions
1..N in that order, stopping at the first failure (spec section 4.6).
Shown for a homogeneous 3-tuple. -/
def bind_tuple3 {α ε : Type} (stmt : Stmt α ε) (a b c : α) :
    List (Nat × α) × Option ε :=
  match stmt 1 a with
  | some e => ([(1, a)], some e)
  | none =>
    match stmt 2 b with
    | some e => ([(1, a), (2, b)], some e)
    | none =>
      match stmt 3 c with
      | some e => ([(1, a), (2, b), (3, c)], some e)
      | none => ([(1, a), (2, b), (3, c)], none)

/-- The sequence of positional calls `(start, x0), (start + 1, x1), ...` made
by a traversal that binds consecutive positions, used to state binding-order
properties. -/
def ascendingCalls {α : Type} (start : Nat) : List α → List (Nat × α)
  | [] => []
  | p :: rest => (start, p) :: ascendingCalls (start + 1) rest

/-- The usable capacity (`max_value_length` in `is_complete`): the buffer
length minus the kind's terminating-zero count when the buffer structurally
ends in those zeroes, and the full buffer length otherwise. -/
def usable_capacity (K : VarKind) (buffer : List Nat) : Nat :=
  if ends_in_zeroes buffer K.TERMINATING_ZEROES then
    buffer.length - K.TERMINATING_ZEROES
  else
    buffer.length

/-- The construction-time invariant of the data model (spec section 3),
enforced by `from_buffer` (`varcell.rs` lines 138-144) and maintained by every
constructor: an indicator denoting truncation relative to the buffer requires
the kind's terminating zeroes at the buffer's end. -/
def buffer_invariant (K : VarKind) (c : VarCell) : Prop :=
  c.ind.is_truncated c.buffer.length = true →
    ends_in_zeroes c.buffer K.TERMINATING_ZEROES = true

/-! ## Helper lemmas -/

/-- Decoding a non-negative wire value yields `Length`. -/
@[simp]
theorem from_isize_natCast (n : Nat) : Indicator.from_isize (n : Int) = .Length n := by
  unfold Indicator.from_isize
  rw [if_neg (by unfold NULL_DATA; omega), if_neg (by unfold NO_TOTAL; omega)]
  simp

/-- The wire encoding round-trips on all three indicator variants. -/
@[simp]
theorem from_isize_to_isize (ind : Indicator) :
    Indicator.from_isize ind.to_isize = ind := by
  cases ind with
  | Null => rfl
  | NoTotal => rfl
  | Length n => exact from_isize_natCast n

/-- Decoded indicator of a cell built from an `Indicator` value. -/
@[simp]
theorem ind_mk (b : List Nat) (i : Indicator) :
    VarCell.ind { buffer := b, indicator := i.to_isize } = i :=
  from_isize_to_isize i

/-- With no mandatory zeroes every buffer trivially ends in them. -/
@[simp]
theorem ends_in_zeroes_zero (l : List Nat) : ends_in_zeroes l 0 = true := by
  simp [ends_in_zeroes]

/-- With one mandatory zero, `ends_in_zeroes` holds exactly when the last
byte exists and is zero. -/
theorem ends_in_zeroes_one (l : List Nat) :
    ends_in_zeroes l 1 = true ↔ l.getLast? = some 0 := by
  unfold ends_in_zeroes
  rcases h : l.reverse with _ | ⟨a, t⟩
  · have hl : l = [] := by simpa using congrArg List.reverse h
    subst hl; simp
  · have hlast : l.getLast? = some a := by rw [← List.head?_reverse, h]; rfl
    have hlen : 1 ≤ l.length := by
      rw [← List.length_reverse l, h]; simp
    rw [hlast]
    simp [hlen]

/-- `from_vec` never panics: the indicator records exactly the buffer length,
which is never a truncation. -/
@[simp]
theorem from_vec_eq (K : VarKind) (s : List Nat) :
    from_vec K s = some { buffer := s, indicator := (s.length : Int) } := by
  simp [from_vec, from_buffer, Indicator.is_truncated, Indicator.to_isize]

/-- `is_complete` unfolded, avoiding the local `let`. -/
theorem is_complete_def (K : VarKind) (c : VarCell) :
    is_complete K c =
      !(c.ind.is_truncated
        (if ends_in_zeroes c.buffer K.TERMINATING_ZEROES then
          c.buffer.length - K.TERMINATING_ZEROES
        else
          c.buffer.length)) := rfl

/-- `as_bytes` unfolded, avoiding the local `let`. -/
theorem as_bytes_def (K : VarKind) (c : VarCell) :
    as_bytes K c =
      match c.ind with
      | .Null => some none
      | .NoTotal =>
        if K.TERMINATING_ZEROES ≤ c.buffer.length then
          some (some (c.buffer.take (c.buffer.length - K.TERMINATING_ZEROES)))
        else
          none
      | .Length len =>
        if is_complete K c then
          some (some (c.buffer.take len))
        else if K.TERMINATING_ZEROES ≤ c.buffer.length then
          some (some (c.buffer.take (c.buffer.length - K.TERMINATING_ZEROES)))
        else
          none := rfl

/-- Overwriting the last element of a list is the same as chopping it off and
appending a zero. -/
theorem set_last (l : List Nat) (n : Nat) (h : l.length = n + 1) :
    l.set n 0 = l.take n ++ [0] := by
  induction l generalizing n with
  | nil => simp at h
  | cons a t ih =>
    cases n with
    | zero =>
      have ht : t = [] := by simpa using h
      subst ht; rfl
    | succ m =>
      have ht : t.length = m + 1 := by simpa using h
      simp [List.set, List.take, ih m ht]

/-! ## Claims -/

/-- C1 counterexample: the slice implementation of `parameter_set_size`
returns `1` even for the empty slice and for a slice of length 2, refuting
"a slice of length N yields N; a slice of length 0 yields 0". -/
theorem c1_slice_set_size_counterexample :
    parameter_set_size_slice ([] : List Nat) = 1 ∧
      parameter_set_size_slice [(3 : Nat), 4] = 1 ∧
      (1 : Nat) ≠ 0 ∧ (1 : Nat) ≠ 2 := by
  decide

/-- C1 (amended): `parameter_set_size` returns 1 for a single bindable value,
1 for a fixed tuple, and also 1 for every slice of identically-typed bindable
values, whatever its length (each slice element is bound to its own position,
so a slice always describes one row of values; the slice implementation never
returns 0). -/
theorem c1_parameter_set_size (α : Type) (a b c : α) (params : List α) :
    parameter_set_size_single = 1 ∧
      parameter_set_size_tuple3 a b c = 1 ∧
      parameter_set_size_slice params = 1 :=
  ⟨rfl, rfl, rfl⟩

/-- C2 counterexample: with kind `Text` and input `[0]`, the owned cell built
by `from_vec` reports `as_bytes = some []` (not `some [0]`) and
`is_complete = false`: the trailing zero byte is mistaken for a truncation
terminator. -/
theorem c2_text_round_trip_counterexample :
    (from_vec Text [0]).map (as_bytes Text) = some (some (some [])) ∧
      (from_vec Text [0]).map (is_complete Text) = some false ∧
      (some (some (some [])) : Option (Option (Option (List Nat)))) ≠
        some (some (some [0])) ∧
      (some false : Option Bool) ≠ some true := by
  decide

/-- C2 (amended): constructing an owned heap cell from byte sequence `s` via
`from_vec` stores exactly `s` with indicator `Length s.length`; with kind
`Binary` the round trip `as_bytes = some s` and `is_complete = true` holds
for every `s`, and with kind `Text` it holds provided `s` does not end in a
zero byte. -/
theorem c2_owned_round_trip (s : List Nat) :
    (from_vec Binary s = some { buffer := s, indicator := (s.length : Int) } ∧
      as_bytes Binary { buffer := s, indicator := (s.length : Int) } = some (some s) ∧
      is_complete Binary { buffer := s, indicator := (s.length : Int) } = true) ∧
    (s.getLast? ≠ some 0 →
      from_vec Text s = some { buffer := s, indicator := (s.length : Int) } ∧
      as_bytes Text { buffer := s, indicator := (s.length : Int) } = some (some s) ∧
      is_complete Text { buffer := s, indicator := (s.length : Int) } = true) := by
  have hB : is_complete Binary { buffer := s, indicator := (s.length : Int) } = true := by
    simp [is_complete_def, VarCell.ind, Binary, Indicator.is_truncated]
  have hBa : as_bytes Binary { buffer := s, indicator := (s.length : Int) } = some (some s) := by
    rw [as_bytes_def]
    simp [VarCell.ind, hB]
  refine ⟨⟨from_vec_eq Binary s, hBa, hB⟩, fun hz => ?_⟩
  have hez : ends_in_zeroes s Text.TERMINATING_ZEROES = false := by
    refine Bool.eq_false_iff.mpr fun hb => hz ?_
    exact (ends_in_zeroes_one s).mp hb
  have hT : is_complete Text { buffer := s, indicator := (s.length : Int) } = true := by
    simp [is_complete_def, VarCell.ind, hez, Indicator.is_truncated]
  have hTa : as_bytes Text { buffer := s, indicator := (s.length : Int) } = some (some s) := by
    rw [as_bytes_def]
    simp [VarCell.ind, hT]
  exact ⟨from_vec_eq Text s, hTa, hT⟩

/-- C4 (confirmed): `is_complete` is true iff the indicator is not `NoTotal`
and its claimed length does not exceed the usable capacity, where the usable
capacity subtracts the kind's terminating-zero count from the buffer length
exactly when the buffer's trailing bytes are those zeroes (a `Null` indicator
claims no length, so the condition holds vacuously and the cell is complete). -/
theorem c4_is_complete_iff (K : VarKind) (c : VarCell) :
    is_complete K c = true ↔
      (c.ind ≠ Indicator.NoTotal ∧
        ∀ n, c.ind = Indicator.Length n → n ≤ usable_capacity K c.buffer) := by
  rw [is_complete_def]
  cases h : c.ind with
  | Null => simp [h, Indicator.is_truncated, usable_capacity]
  | NoTotal => simp [h, Indicator.is_truncated]
  | Length n => simp [h, Indicator.is_truncated, usable_capacity]

/-- A buffer that ends in the mandatory zeroes is at least that long. -/
theorem ends_in_zeroes_le (b : List Nat) (Z : Nat) (h : ends_in_zeroes b Z = true) :
    Z ≤ b.length := by
  unfold ends_in_zeroes at h
  simp only [Bool.and_eq_true, decide_eq_true_eq] at h
  exact h.1

/-- On a cell satisfying the construction invariant, incompleteness forces the
terminating zeroes to be structurally present (otherwise the usable capacity
is the full buffer length and the truncation claim contradicts the
invariant). -/
theorem incomplete_ends_in_zeroes (K : VarKind) (c : VarCell)
    (hinv : buffer_invariant K c) (h : is_complete K c = false) :
    ends_in_zeroes c.buffer K.TERMINATING_ZEROES = true := by
  by_cases hez : ends_in_zeroes c.buffer K.TERMINATING_ZEROES = true
  · exact hez
  · exfalso
    have hez' : ends_in_zeroes c.buffer K.TERMINATING_ZEROES = false :=
      Bool.eq_false_iff.mpr hez
    rw [is_complete_def, hez'] at h
    simp at h
    exact hez (hinv h)

/-- C5 (confirmed): `as_bytes` returns the NULL marker (here `some none`) iff
the indicator is `Null`; under `NoTotal` it yields the buffer without the
kind's mandatory trailing zeroes; under `Length n` with a complete value it
yields exactly the first `n` buffer bytes (`n` fits in the buffer); under
`Length n` with an incomplete value it yields the buffer without the
mandatory trailing zeroes, not `n` bytes.  The value-returning clauses are
guarded by `TERMINATING_ZEROES ≤ buffer.length`, the exact condition under
which the source's subtraction does not panic; the final conjunct shows this
guard is no restriction on the data model: on every cell satisfying the
construction invariant of spec section 3 (which `from_buffer` enforces and
every constructor maintains) `as_bytes` never panics. -/
theorem c5_as_bytes_cases (K : VarKind) (c : VarCell) :
    (as_bytes K c = some none ↔ c.ind = Indicator.Null) ∧
    (c.ind = Indicator.NoTotal → K.TERMINATING_ZEROES ≤ c.buffer.length →
      as_bytes K c = some (some (c.buffer.take (c.buffer.length - K.TERMINATING_ZEROES)))) ∧
    (∀ n, c.ind = Indicator.Length n → is_complete K c = true →
      n ≤ c.buffer.length ∧ as_bytes K c = some (some (c.buffer.take n))) ∧
    (∀ n, c.ind = Indicator.Length n → is_complete K c = false →
      K.TERMINATING_ZEROES ≤ c.buffer.length →
      as_bytes K c = some (some (c.buffer.take (c.buffer.length - K.TERMINATING_ZEROES)))) ∧
    (buffer_invariant K c → as_bytes K c ≠ none) := by
  refine ⟨?_, ?_, ?_, ?_, ?_⟩
  · rw [as_bytes_def]
    cases h : c.ind with
    | Null => simp [h]
    | NoTotal =>
      simp only [h]
      constructor
      · intro hx
        exfalso
        revert hx
        split <;> simp
      · intro hx
        cases hx
    | Length n =>
      simp only [h]
      constructor
      · intro hx
        exfalso
        revert hx
        split
        · simp
        · split <;> simp
      · intro hx
        cases hx
  · intro h hz
    rw [as_bytes_def, h]
    simp [hz]
  · intro n h hc
    constructor
    · rw [is_complete_def, h] at hc
      by_cases he : ends_in_zeroes c.buffer K.TERMINATING_ZEROES <;>
        simp [he, Indicator.is_truncated] at hc <;> omega
    · rw [as_bytes_def, h]
      simp [hc]
  · intro n h hc hz
    rw [as_bytes_def, h]
    simp [hc, hz]
  · intro hinv
    rw [as_bytes_def]
    cases h : c.ind with
    | Null => simp
    | NoTotal =>
      have hz : K.TERMINATING_ZEROES ≤ c.buffer.length :=
        ends_in_zeroes_le _ _ (hinv (by rw [h]; rfl))
      simp [hz]
    | Length n =>
      by_cases hc : is_complete K c = true
      · simp [hc]
      · have hc' : is_complete K c = false := Bool.eq_false_iff.mpr hc
        have hz : K.TERMINATING_ZEROES ≤ c.buffer.length :=
          ends_in_zeroes_le _ _ (incomplete_ends_in_zeroes K c hinv hc')
        simp [hc', hz]

/-- C6 (confirmed): `from_buffer` panics exactly when the indicator denotes
truncation relative to the buffer length (`NoTotal`, or a `Length` strictly
exceeding it) while the buffer does not end in the kind's required number of
zero bytes; otherwise it succeeds and stores the given buffer and indicator
unmodified. -/
theorem c6_from_buffer (K : VarKind) (buf : List Nat) (ind : Indicator) :
    (from_buffer K buf ind = none ↔
      ((ind = Indicator.NoTotal ∨ ∃ n, ind = Indicator.Length n ∧ buf.length < n) ∧
        ends_in_zeroes buf K.TERMINATING_ZEROES = false)) ∧
    (∀ c, from_buffer K buf ind = some c → c.buffer = buf ∧ c.ind = ind) := by
  constructor
  · unfold from_buffer
    by_cases he : ends_in_zeroes buf K.TERMINATING_ZEROES <;>
      cases ind <;> simp [Indicator.is_truncated, he]
  · intro c hc
    unfold from_buffer at hc
    by_cases hcond :
        (ind.is_truncated buf.length && !(ends_in_zeroes buf K.TERMINATING_ZEROES)) = true
    · rw [if_pos hcond] at hc
      cases hc
    · rw [if_neg hcond] at hc
      cases hc
      exact ⟨rfl, from_isize_to_isize ind⟩

/-- A cell whose indicator claims exactly the buffer's usable length is
complete, whether or not the buffer ends in the mandatory zeroes. -/
theorem is_complete_after_hide (K : VarKind) (s : List Nat) :
    is_complete K
      { buffer := s, indicator := ((s.length - K.TERMINATING_ZEROES : Nat) : Int) } = true := by
  rw [is_complete_def]
  by_cases he : ends_in_zeroes s K.TERMINATING_ZEROES <;>
    simp [he, VarCell.ind, Indicator.is_truncated]

/-- An incomplete cell whose buffer is at least the kind's terminating-zero
count long has `as_bytes` return the buffer without those trailing zeroes
(an incomplete cell is never `Null`, and the length bound rules out the
subtraction panic). -/
theorem as_bytes_incomplete (K : VarKind) (c : VarCell)
    (h1 : is_complete K c = false)
    (h2 : K.TERMINATING_ZEROES ≤ c.buffer.length) :
    as_bytes K c = some (some (c.buffer.take (c.buffer.length - K.TERMINATING_ZEROES))) := by
  rw [as_bytes_def]
  cases h : c.ind with
  | Null =>
    exfalso
    rw [is_complete_def, h] at h1
    simp [Indicator.is_truncated] at h1
  | NoTotal => simp [h2]
  | Length n => simp [h1, h2]

/-- C7 (confirmed): `hide_truncation` is the identity on a complete cell, and
applying it twice yields the same state as applying it once (on a cell where
the first application panics, so does the second). -/
theorem c7_hide_truncation_idempotent (K : VarKind) (c : VarCell) :
    (is_complete K c = true → hide_truncation K c = some c) ∧
    (∀ c', hide_truncation K c = some c' → hide_truncation K c' = some c') := by
  constructor
  · intro h
    rw [hide_truncation, if_pos h]
  · intro c' h
    rw [hide_truncation] at h
    by_cases hcomp : is_complete K c = true
    · rw [if_pos hcomp] at h
      cases h
      rw [hide_truncation, if_pos hcomp]
    · rw [if_neg hcomp] at h
      by_cases hz : K.TERMINATING_ZEROES ≤ c.buffer.length
      · rw [if_pos hz] at h
        cases h
        rw [hide_truncation, if_pos (is_complete_after_hide K c.buffer)]
      · rw [if_neg hz] at h
        cases h

/-- C9 (confirmed): when `hide_truncation` returns, it has changed at most the
indicator: the buffer and hence `capacity` are unchanged, and `as_bytes`
yields the same value after the call as before it. -/
theorem c9_hide_truncation_frame (K : VarKind) (c c' : VarCell)
    (h : hide_truncation K c = some c') :
    c'.buffer = c.buffer ∧ capacity c' = capacity c ∧ as_bytes K c' = as_bytes K c := by
  rw [hide_truncation] at h
  by_cases hcomp : is_complete K c = true
  · rw [if_pos hcomp] at h
    cases h
    exact ⟨rfl, rfl, rfl⟩
  · rw [if_neg hcomp] at h
    by_cases hz : K.TERMINATING_ZEROES ≤ c.buffer.length
    · rw [if_pos hz] at h
      cases h
      refine ⟨rfl, rfl, ?_⟩
      have hfalse : is_complete K c = false := Bool.eq_false_iff.mpr hcomp
      rw [as_bytes_incomplete K c hfalse hz, as_bytes_def]
      simp [VarCell.ind, is_complete_after_hide K c.buffer]
    · rw [if_neg hz] at h
      cases h

/-- C9 witness: the frame property applied to the concrete truncated text cell
with buffer bytes `"1\0"` and indicator `Length 5`. -/
theorem c9_hide_truncation_frame_witness :
    ({ buffer := [49, 0], indicator := 1 } : VarCell).buffer =
        ({ buffer := [49, 0], indicator := 5 } : VarCell).buffer ∧
      capacity { buffer := [49, 0], indicator := 1 } =
        capacity { buffer := [49, 0], indicator := 5 } ∧
      as_bytes Text { buffer := [49, 0], indicator := 1 } =
        as_bytes Text { buffer := [49, 0], indicator := 5 } :=
  c9_hide_truncation_frame Text
    { buffer := [49, 0], indicator := 5 }
    { buffer := [49, 0], indicator := 1 }
    (by decide)

/-- C10 (confirmed): the fixed-capacity constructor with `LENGTH = 0` panics
on every non-empty input (the truncation path overwrites the last buffer
byte, which a zero-length buffer lacks), while on the empty input it succeeds
with an empty buffer and an indicator decoding to `Length 0`. -/
theorem c10_zero_capacity (bytes : List Nat) :
    (bytes ≠ [] → array_new 0 bytes = none) ∧
      array_new 0 ([] : List Nat) = some { buffer := [], indicator := (0 : Int) } ∧
      ({ buffer := [], indicator := (0 : Int) } : VarCell).ind = Indicator.Length 0 := by
  refine ⟨?_, by decide, by decide⟩
  intro h
  have hpos : 0 < bytes.length := List.length_pos.mpr h
  simp [array_new, hpos]

/-- C3 counterexample: with kind `Binary` (trailing-zero count 0), capacity 1
and input `[1, 2]`, the fixed-capacity constructor stores `[0]` (last byte
forced to zero), so `as_bytes` returns `some [0]` and not the first
`1 - 0 = 1` byte `[1]` of the input. -/
theorem c3_binary_truncation_counterexample :
    (array_new 1 [1, 2]).map (as_bytes Binary) = some (some (some [0])) ∧
      ([1, 2] : List Nat).take (1 - Binary.TERMINATING_ZEROES) = [1] ∧
      (some (some (some [0])) : Option (Option (Option (List Nat)))) ≠
        some (some (some [1])) := by
  decide

/-- C3 (amended): for capacity `C > 0` and input strictly longer than `C`,
the fixed-capacity constructor succeeds, `capacity = C`, the last stored byte
is `0`, the cell is incomplete for both kinds, and `as_bytes` returns exactly
`C` minus the kind's trailing-zero count bytes; for `Text` these are the
first `C - 1` input bytes, while for `Binary` they are the first `C - 1`
input bytes followed by the forced zero byte (not the input's `C`-th byte). -/
theorem c3_fixed_capacity_truncation (C : Nat) (s : List Nat)
    (hC : 0 < C) (hs : C < s.length) :
    ∃ c, array_new C s = some c ∧
      capacity c = C ∧
      c.buffer.getLast? = some 0 ∧
      is_complete Text c = false ∧
      is_complete Binary c = false ∧
      as_bytes Text c = some (some (s.take (C - Text.TERMINATING_ZEROES))) ∧
      as_bytes Binary c = some (some (s.take (C - 1) ++ [0])) := by
  have htlen : (s.take C).length = C := by
    rw [List.length_take]
    omega
  have hbuf : (s.take C).set (C - 1) 0 = s.take (C - 1) ++ [0] := by
    rw [set_last _ _ (by omega), List.take_take]
    congr 2
    omega
  have htlen' : (s.take (C - 1)).length = C - 1 := by
    rw [List.length_take]
    omega
  have hlen : (s.take (C - 1) ++ [0]).length = C := by
    rw [List.length_append, htlen']
    simp
    omega
  have hez : ends_in_zeroes (s.take (C - 1) ++ [0]) Text.TERMINATING_ZEROES = true :=
    (ends_in_zeroes_one _).mpr (List.getLast?_concat _)
  have hincT : is_complete Text ⟨s.take (C - 1) ++ [0], (s.length : Int)⟩ = false := by
    rw [is_complete_def]
    simp only [hez, if_pos, hlen, VarCell.ind, from_isize_natCast]
    simp [Indicator.is_truncated, Text]
    omega
  have hincB : is_complete Binary ⟨s.take (C - 1) ++ [0], (s.length : Int)⟩ = false := by
    rw [is_complete_def]
    simp only [Binary, ends_in_zeroes_zero, if_pos, hlen, VarCell.ind, from_isize_natCast]
    simp [Indicator.is_truncated]
    omega
  have hzT : Text.TERMINATING_ZEROES ≤ (s.take (C - 1) ++ [0]).length := by
    rw [hlen]
    show 1 ≤ C
    omega
  have hzB : Binary.TERMINATING_ZEROES ≤ (s.take (C - 1) ++ [0]).length := Nat.zero_le _
  refine ⟨⟨s.take (C - 1) ++ [0], (s.length : Int)⟩, ?_, ?_, ?_, hincT, hincB, ?_, ?_⟩
  · rw [array_new, if_pos hs, if_neg (by omega), hbuf]
  · rw [capacity]
    exact hlen
  · exact List.getLast?_concat _
  · rw [as_bytes_incomplete _ _ hincT hzT]
    show some (some ((s.take (C - 1) ++ [0]).take
        ((s.take (C - 1) ++ [0]).length - Text.TERMINATING_ZEROES))) =
      some (some (s.take (C - Text.TERMINATING_ZEROES)))
    rw [hlen]
    show some (some ((s.take (C - 1) ++ [0]).take (C - 1))) = some (some (s.take (C - 1)))
    set t := s.take (C - 1) with ht
    rw [← htlen', List.take_left]
  · rw [as_bytes_incomplete _ _ hincB hzB]
    show some (some ((s.take (C - 1) ++ [0]).take
        ((s.take (C - 1) ++ [0]).length - 0))) =
      some (some (s.take (C - 1) ++ [0]))
    rw [Nat.sub_zero, List.take_length]

/-- C3 witness: the amended truncation property at capacity 2 and input
`[1, 2, 3]`. -/
theorem c3_fixed_capacity_truncation_witness :
    ∃ c, array_new 2 [1, 2, 3] = some c ∧
      capacity c = 2 ∧
      c.buffer.getLast? = some 0 ∧
      is_complete Text c = false ∧
      is_complete Binary c = false ∧
      as_bytes Text c = some (some (([1, 2, 3] : List Nat).take (2 - Text.TERMINATING_ZEROES))) ∧
      as_bytes Binary c = some (some (([1, 2, 3] : List Nat).take (2 - 1) ++ [0])) :=
  c3_fixed_capacity_truncation 2 [1, 2, 3] (by decide) (by decide)

/-- `ascendingCalls` has one entry per list element. -/
theorem ascendingCalls_length {α : Type} (start : Nat) (l : List α) :
    (ascendingCalls start l).length = l.length := by
  induction l generalizing start with
  | nil => rfl
  | cons p rest ih => simp [ascendingCalls, ih]

/-- The `j`-th entry of `ascendingCalls start l` is position `start + j`
paired with the `j`-th element of `l`. -/
theorem ascendingCalls_getElem? {α : Type} (start : Nat) (l : List α) (j : Nat) :
    (ascendingCalls start l)[j]? = (l[j]?).map fun x => (start + j, x) := by
  induction l generalizing start j with
  | nil => simp [ascendingCalls]
  | cons p rest ih =>
    cases j with
    | zero => simp [ascendingCalls]
    | succ m =>
      simp only [ascendingCalls, List.getElem?_cons_succ, ih (start + 1) m]
      rw [show start + 1 + m = start + (m + 1) from by omega]

/-- When every issued bind succeeds and no visited index reaches the 16-bit
position overflow, the loop from `index` issues one call per element at
consecutive positions `index + 1, index + 2, ...` and returns success. -/
theorem bind_loop_ok {α ε : Type} (stmt : Stmt α ε) (rest : List α) (index : Nat)
    (hbound : index + rest.length ≤ 65535)
    (h : ∀ i x, rest[i]? = some x → stmt (index + 1 + i) x = none) :
    bind_loop stmt index rest = some (ascendingCalls (index + 1) rest, none) := by
  induction rest generalizing index with
  | nil => rfl
  | cons p tl ih =>
    have hlen := hbound
    simp only [List.length_cons] at hlen
    have hidx : index % 65536 = index := Nat.mod_eq_of_lt (by omega)
    have h0 : stmt (index + 1) p = none := by
      have hx := h 0 p (by simp)
      simpa using hx
    have htl : ∀ i x, tl[i]? = some x → stmt (index + 1 + 1 + i) x = none := by
      intro i x hx
      rw [show index + 1 + 1 + i = index + 1 + (i + 1) from by omega]
      exact h (i + 1) x (by simpa using hx)
    have hbound' : index + 1 + tl.length ≤ 65535 := by omega
    simp only [bind_loop, hidx]
    rw [if_neg (by omega : ¬ index = 65535)]
    simp [h0, ascendingCalls, ih (index + 1) hbound' htl]

/-- When the statement first fails at relative index `k` and no index up to
`k` reaches the 16-bit position overflow, the loop from `index` issues the
calls for indices `0..k` only and returns that error. -/
theorem bind_loop_err {α ε : Type} (stmt : Stmt α ε) (rest : List α)
    (index k : Nat) (x : α) (e : ε)
    (hbound : index + k ≤ 65534)
    (hk : rest[k]? = some x) (he : stmt (index + 1 + k) x = some e)
    (hprev : ∀ i y, i < k → rest[i]? = some y → stmt (index + 1 + i) y = none) :
    bind_loop stmt index rest =
      some (ascendingCalls (index + 1) (rest.take (k + 1)), some e) := by
  induction rest generalizing index k with
  | nil => simp at hk
  | cons p tl ih =>
    have hidx : index % 65536 = index := Nat.mod_eq_of_lt (by omega)
    cases k with
    | zero =>
      obtain rfl : p = x := by simpa using hk
      have he0 : stmt (index + 1) p = some e := by simpa using he
      simp only [bind_loop, hidx]
      rw [if_neg (by omega : ¬ index = 65535)]
      simp [he0, ascendingCalls]
    | succ m =>
      have h0 : stmt (index + 1) p = none := by
        have hx := hprev 0 p (by omega) (by simp)
        simpa using hx
      have hk' : tl[m]? = some x := by simpa using hk
      have he' : stmt (index + 1 + 1 + m) x = some e := by
        rw [show index + 1 + 1 + m = index + 1 + (m + 1) from by omega]
        exact he
      have hprev' : ∀ i y, i < m → tl[i]? = some y → stmt (index + 1 + 1 + i) y = none := by
        intro i y hi hy
        rw [show index + 1 + 1 + i = index + 1 + (i + 1) from by omega]
        exact hprev (i + 1) y (by omega) (by simpa using hy)
      have hbound' : index + 1 + m ≤ 65534 := by omega
      simp only [bind_loop, hidx]
      rw [if_neg (by omega : ¬ index = 65535)]
      simp [h0, ascendingCalls, ih (index + 1) m hbound' hk' he' hprev']

/-- A traversal of all-accepted binds that reaches index 65535 hits the u16
position overflow and panics, whatever came before or after. -/
theorem bind_loop_overflow (len index : Nat) (h : index + len = 65536) (hlen : 1 ≤ len) :
    bind_loop accept_all index (List.replicate len (0 : Nat)) = none := by
  induction len generalizing index with
  | zero => omega
  | succ m ih =>
    rw [List.replicate_succ]
    by_cases hm : m = 0
    · subst hm
      obtain rfl : index = 65535 := by omega
      simp [bind_loop]
    · have hidx : index % 65536 = index := Nat.mod_eq_of_lt (by omega)
      simp only [bind_loop, hidx]
      rw [if_neg (by omega : ¬ index = 65535)]
      simp [accept_all, ih (index + 1) (by omega) (by omega)]

/-- C8 counterexample: on a slice of 65536 parameters the position
computation `index as u16 + 1` overflows at index 65535, so the traversal
panics (under checked arithmetic) instead of invoking the statement once per
element at ascending positions 1..65536 and returning success. -/
theorem c8_position_overflow_counterexample :
    bind_input_parameters_to accept_all (List.replicate 65536 (0 : Nat)) = none ∧
      (none : Option (List (Nat × Nat) × Option Unit)) ≠
        some (ascendingCalls 1 (List.replicate 65536 (0 : Nat)), none) := by
  constructor
  · exact bind_loop_overflow 65536 0 (by omega) (by omega)
  · intro hx
    exact Option.noConfusion hx

/-- C8 (amended): the slice traversal passes each position as
`index as u16 + 1`.  For every slice of at most 65535 elements whose binds
all succeed, the statement is invoked exactly once per element at positions
1..N in ascending index order and success is returned; whenever the first
failure occurs at an index of at most 65534 (on a slice of any length), the
traversal issues exactly the calls for indices `0..k`, returns that failure,
and attempts no later position (the earlier calls stay issued — the trace
records no rollback); at index 65535 the 16-bit position computation
overflows instead, so the unbounded ascending-positions property fails for
longer slices.  A 3-tuple binds `1 -> a, 2 -> b, 3 -> c` in that order. -/
theorem c8_binding_order {α ε : Type} (stmt : Stmt α ε) (params : List α) :
    (params.length ≤ 65535 →
      (∀ i x, params[i]? = some x → stmt (i + 1) x = none) →
      bind_input_parameters_to stmt params = some (ascendingCalls 1 params, none)) ∧
    (∀ k x e, k ≤ 65534 → params[k]? = some x → stmt (k + 1) x = some e →
      (∀ i y, i < k → params[i]? = some y → stmt (i + 1) y = none) →
      bind_input_parameters_to stmt params =
        some (ascendingCalls 1 (params.take (k + 1)), some e)) ∧
    (∀ a b c : α, stmt 1 a = none → stmt 2 b = none → stmt 3 c = none →
      bind_tuple3 stmt a b c = ([(1, a), (2, b), (3, c)], none)) := by
  refine ⟨?_, ?_, ?_⟩
  · intro hlen h
    exact bind_loop_ok stmt params 0 (by omega)
      fun i x hx => by simpa [Nat.add_comm] using h i x hx
  · intro k x e hk65 hk he hprev
    refine bind_loop_err stmt params 0 k x e (by omega) hk
      (by simpa [Nat.add_comm] using he) ?_
    intro i y hi hy
    simpa [Nat.add_comm] using hprev i y hi hy
  · intro a b c h1 h2 h3
    simp [bind_tuple3, h1, h2, h3]

end Odbc
